import Mathlib

/-!
Verification of the BIP32 extended-private-key derivation core of
tiny-hderive (`src/bip32.rs`) against its natural-language specification.

The development shallowly embeds the Rust source.  Byte strings are
`List Nat` (each element a byte value), machine integers are `Nat` with
explicit `% 2^w` masking, and fallible operations return `Except Error _`
or `Option _`.  The external collaborators that the source consumes
through narrow interfaces (HMAC-SHA512 via the `hmac`/`sha2` crates,
secp256k1 scalar/point arithmetic via `k256`, Base58 decoding) are
embedded as the mathematical functions they compute, so that the
derivation pipeline is executable end to end inside the kernel.
-/

set_option maxRecDepth 100000
set_option maxHeartbeats 40000000

/-- Big-endian interpretation of a byte list as a natural number. -/
def bytesToNat (bs : List Nat) : Nat := bs.foldl (fun acc b => acc * 256 + b) 0

/-- Big-endian encoding of `v` into exactly `w` bytes (truncating values
at or above `2 ^ (8 * w)`). -/
def natToBytesBE : Nat → Nat → List Nat
  | 0, _ => []
  | w + 1, v => natToBytesBE w (v / 256) ++ [v % 256]

/-- The 64-bit mask. -/
def m64 : Nat := 2 ^ 64 - 1

/-- Right rotation of a 64-bit word. -/
def rotr64 (x k : Nat) : Nat := (x >>> k) ||| ((x &&& (2 ^ k - 1)) <<< (64 - k))

/-- Upper-case sigma-0 of FIPS 180-4 (SHA-512). -/
def bigS0 (x : Nat) : Nat := rotr64 x 28 ^^^ rotr64 x 34 ^^^ rotr64 x 39

/-- Upper-case sigma-1 of FIPS 180-4 (SHA-512). -/
def bigS1 (x : Nat) : Nat := rotr64 x 14 ^^^ rotr64 x 18 ^^^ rotr64 x 41

/-- Lower-case sigma-0 of FIPS 180-4 (SHA-512). -/
def smallS0 (x : Nat) : Nat := rotr64 x 1 ^^^ rotr64 x 8 ^^^ (x >>> 7)

/-- Lower-case sigma-1 of FIPS 180-4 (SHA-512). -/
def smallS1 (x : Nat) : Nat := rotr64 x 19 ^^^ rotr64 x 61 ^^^ (x >>> 6)

/-- The 80 SHA-512 round constants of FIPS 180-4, written in decimal. -/
def sha512K : List Nat := [
  4794697086780616226, 8158064640168781261, 13096744586834688815,
  16840607885511220156, 4131703408338449720, 6480981068601479193,
  10538285296894168987, 12329834152419229976, 15566598209576043074,
  1334009975649890238, 2608012711638119052, 6128411473006802146,
  8268148722764581231, 9286055187155687089, 11230858885718282805,
  13951009754708518548, 16472876342353939154, 17275323862435702243,
  1135362057144423861, 2597628984639134821, 3308224258029322869,
  5365058923640841347, 6679025012923562964, 8573033837759648693,
  10970295158949994411, 12119686244451234320, 12683024718118986047,
  13788192230050041572, 14330467153632333762, 15395433587784984357,
  489312712824947311, 1452737877330783856, 2861767655752347644,
  3322285676063803686, 5560940570517711597, 5996557281743188959,
  7280758554555802590, 8532644243296465576, 9350256976987008742,
  10552545826968843579, 11727347734174303076, 12113106623233404929,
  14000437183269869457, 14369950271660146224, 15101387698204529176,
  15463397548674623760, 17586052441742319658, 1182934255886127544,
  1847814050463011016, 2177327727835720531, 2830643537854262169,
  3796741975233480872, 4115178125766777443, 5681478168544905931,
  6601373596472566643, 7507060721942968483, 8399075790359081724,
  8693463985226723168, 9568029438360202098, 10144078919501101548,
  10430055236837252648, 11840083180663258601, 13761210420658862357,
  14299343276471374635, 14566680578165727644, 15097957966210449927,
  16922976911328602910, 17689382322260857208, 500013540394364858,
  748580250866718886, 1242879168328830382, 1977374033974150939,
  2944078676154940804, 3659926193048069267, 4368137639120453308,
  4836135668995329356, 5532061633213252278, 6448918945643986474,
  6902733635092675308, 7801388544844847127]

/-- The SHA-512 initial hash value, as 8 words in decimal. -/
def sha512IV : List Nat := [
  7640891576956012808, 13503953896175478587, 4354685564936845355,
  11912009170470909681, 5840696475078001361, 11170449401992604703,
  2270897969802886507, 6620516959819538809]

/-- One SHA-512 round per element of the round-constant list.  The 16-word
message-schedule window lives packed in the single natural `w` (word `t + i`
sitting at bits `64 * i`), and the new schedule word is produced on the fly. -/
def sha512Rounds : List Nat → Nat → Nat → Nat → Nat → Nat → Nat → Nat → Nat → Nat →
    Nat × Nat × Nat × Nat × Nat × Nat × Nat × Nat
  | [], _, a, b, c, d, e, f, g, h => (a, b, c, d, e, f, g, h)
  | kt :: ks, w, a, b, c, d, e, f, g, h =>
    let w0 := w &&& m64
    let t1 := (h + bigS1 e + ((e &&& f) ^^^ ((e ^^^ m64) &&& g)) + kt + w0) &&& m64
    let t2 := (bigS0 a + ((a &&& b) ^^^ (a &&& c) ^^^ (b &&& c))) &&& m64
    let w16 := (smallS1 ((w >>> 896) &&& m64) + ((w >>> 576) &&& m64) +
                smallS0 ((w >>> 64) &&& m64) + w0) &&& m64
    sha512Rounds ks ((w >>> 64) ||| (w16 <<< 960))
      ((t1 + t2) &&& m64) a b c ((d + t1) &&& m64) e f g

/-- Group a byte list into big-endian 64-bit words, 8 bytes per word. -/
def toWords : List Nat → List Nat
  | b0 :: b1 :: b2 :: b3 :: b4 :: b5 :: b6 :: b7 :: rest =>
    bytesToNat [b0, b1, b2, b3, b4, b5, b6, b7] :: toWords rest
  | _ => []

/-- Pack 16 words into one natural, word 0 in the lowest 64 bits. -/
def packWords (ws : List Nat) : Nat := ws.foldr (fun wd acc => (acc <<< 64) ||| wd) 0

/-- SHA-512 compression: fold one 128-byte block (given packed as `w`) into
the 8-word state. -/
def sha512Compress (st : List Nat) (w : Nat) : List Nat :=
  match st with
  | [a, b, c, d, e, f, g, h] =>
    let r := sha512Rounds sha512K w a b c d e f g h
    [(a + r.1) &&& m64, (b + r.2.1) &&& m64, (c + r.2.2.1) &&& m64, (d + r.2.2.2.1) &&& m64,
     (e + r.2.2.2.2.1) &&& m64, (f + r.2.2.2.2.2.1) &&& m64, (g + r.2.2.2.2.2.2.1) &&& m64,
     (h + r.2.2.2.2.2.2.2) &&& m64]
  | _ => st

/-- Process the padded message, given as 64-bit words, one 16-word block at
a time. -/
def sha512Words : List Nat → List Nat → List Nat
  | st, w0 :: w1 :: w2 :: w3 :: w4 :: w5 :: w6 :: w7 ::
        w8 :: w9 :: w10 :: w11 :: w12 :: w13 :: w14 :: w15 :: rest =>
    sha512Words (sha512Compress st
      (packWords [w0, w1, w2, w3, w4, w5, w6, w7, w8, w9, w10, w11, w12, w13, w14, w15])) rest
  | st, _ => st

/-- Merkle-Damgard padding of SHA-512: append `0x80`, zeros, and the 128-bit
big-endian bit length, up to a multiple of 128 bytes. -/
def sha512Pad (msg : List Nat) : List Nat :=
  msg ++ [0x80] ++ List.replicate ((128 - (msg.length + 17) % 128) % 128) 0 ++
    natToBytesBE 16 (8 * msg.length)

/-- SHA-512 of a byte list, as a 64-byte list. -/
def sha512 (msg : List Nat) : List Nat :=
  (sha512Words sha512IV (toWords (sha512Pad msg))).foldr
    (fun wd acc => natToBytesBE 8 wd ++ acc) []

/-- HMAC-SHA512 (RFC 2104 instantiated with SHA-512, block size 128 bytes).
This is the computation performed by `Hmac::<Sha512>::new_varkey(key)`
followed by `update`s totalling `msg` and `finalize` in the source; keying
never fails, for any key length. -/
def hmacSha512 (key msg : List Nat) : List Nat :=
  let k0 := if 128 < key.length then sha512 key else key
  let kp := k0 ++ List.replicate (128 - k0.length) 0
  sha512 ((kp.map (fun b => b ^^^ 0x5c)) ++ sha512 ((kp.map (fun b => b ^^^ 0x36)) ++ msg))

/-- The secp256k1 base-field prime. -/
def secpP : Nat := 2 ^ 256 - 2 ^ 32 - 977

/-- The secp256k1 curve (group) order, bounding valid private scalars. -/
def secpN : Nat := 0xfffffffffffffffffffffffffffffffebaaedce6af48a03bbfd25e8cd0364141

/-- Multiplication in the secp256k1 base field. -/
def fmul (a b : Nat) : Nat := a * b % secpP

/-- Subtraction in the secp256k1 base field (well defined for any inputs). -/
def fsub (a b : Nat) : Nat := (a + (secpP - b % secpP)) % secpP

/-- Fuel-indexed modular exponentiation by squaring; the fuel bounds the
number of exponent bits processed. -/
def powModAux : Nat → Nat → Nat → Nat → Nat → Nat
  | 0, _, _, _, acc => acc
  | fuel + 1, b, e, m, acc =>
    powModAux fuel (b * b % m) (e / 2) m (if e % 2 = 1 then acc * b % m else acc)

/-- Modular exponentiation `b ^ e % m`, correct for exponents below `2 ^ 256`. -/
def powMod (b e m : Nat) : Nat := powModAux 256 (b % m) e m (1 % m)

/-- Doubling on secp256k1 in Jacobian coordinates (curve parameter `a = 0`);
any triple with third coordinate 0 is the point at infinity. -/
def jDouble : Nat × Nat × Nat → Nat × Nat × Nat
  | (x, y, z) =>
    if y % secpP = 0 ∨ z = 0 then (1, 1, 0)
    else
      let ysq := fmul y y
      let s := fmul 4 (fmul x ysq)
      let m := fmul 3 (fmul x x)
      let x2 := fsub (fmul m m) (fmul 2 s)
      (x2, fsub (fmul m (fsub s x2)) (fmul 8 (fmul ysq ysq)), fmul 2 (fmul y z))

/-- Addition on secp256k1 in Jacobian coordinates. -/
def jAdd (P Q : Nat × Nat × Nat) : Nat × Nat × Nat :=
  match P, Q with
  | (x1, y1, z1), (x2, y2, z2) =>
    if z1 = 0 then Q
    else if z2 = 0 then P
    else
      let z1sq := fmul z1 z1
      let z2sq := fmul z2 z2
      let u1 := fmul x1 z2sq
      let u2 := fmul x2 z1sq
      let s1 := fmul y1 (fmul z2 z2sq)
      let s2 := fmul y2 (fmul z1 z1sq)
      if u1 = u2 then
        if s1 = s2 then jDouble (x1, y1, z1) else (1, 1, 0)
      else
        let h := fsub u2 u1
        let r := fsub s2 s1
        let hsq := fmul h h
        let hcb := fmul h hsq
        let u1hsq := fmul u1 hsq
        let x3 := fsub (fsub (fmul r r) hcb) (fmul 2 u1hsq)
        (x3, fsub (fmul r (fsub u1hsq x3)) (fmul s1 hcb), fmul h (fmul z1 z2))

/-- Fuel-indexed right-to-left double-and-add scalar multiplication. -/
def jMulAux : Nat → Nat → Nat × Nat × Nat → Nat × Nat × Nat → Nat × Nat × Nat
  | 0, _, _, acc => acc
  | fuel + 1, k, base, acc =>
    jMulAux fuel (k / 2) (jDouble base) (if k % 2 = 1 then jAdd acc base else acc)

/-- Scalar multiplication `k * P` on secp256k1, correct for `k < 2 ^ 256`. -/
def jMul (k : Nat) (P : Nat × Nat × Nat) : Nat × Nat × Nat := jMulAux 256 k P (1, 1, 0)

/-- Jacobian-to-affine conversion; `none` is the point at infinity. -/
def jToAffine : Nat × Nat × Nat → Option (Nat × Nat)
  | (x, y, z) =>
    if z = 0 then none
    else
      let zi := powMod z (secpP - 2) secpP
      let zisq := fmul zi zi
      some (fmul x zisq, fmul y (fmul zi zisq))

/-- The secp256k1 base point in Jacobian coordinates. -/
def secpG : Nat × Nat × Nat :=
  (0x79be667ef9dcbbac55a06295ce870b07029bfcdb2dce28d959f2815b16f81798,
   0x483ada7726a3c4655da4fbfc0e1108a8fd17b448a68554199c47d08ffb10d4b8, 1)

/-- SEC1 compressed encoding of the public point of scalar `k`, as computed
by `secret_key.public_key().to_encoded_point(true)` in the source: one
parity byte (2 for even `y`, 3 for odd `y`) followed by the 32-byte
big-endian `x` coordinate.  The point at infinity, unreachable for a valid
secret scalar, is encoded as the single byte 0 (the SEC1 identity encoding). -/
def pubkeyBytes (k : Nat) : List Nat :=
  match jToAffine (jMul k secpG) with
  | none => [0]
  | some (x, y) => (if y % 2 = 0 then 2 else 3) :: natToBytesBE 32 x

/-- Modelled from the spec: the error taxonomy of `crate::Error` (the
file `lib.rs` of the crate is not under `src/`).  Section 7 of the specification
names a curve-parameter error (`Secp256k1`), an invalid-child-number error
for HMAC keying failure, and an invalid-serialized-key error for the
parsing path; these are exactly the three variants `bip32.rs` constructs. -/
inductive Error where
  | Secp256k1
  | InvalidChildNumber
  | InvalidExtendedPrivKey
deriving DecidableEq

/-- SecretBuffer of the specification, `Protected` in `bip32.rs`
(line 16): a 32-byte owned buffer for chain-code material. -/
structure Protected where
  buf : List Nat
deriving DecidableEq

/-- Construction of a `Protected` buffer from a byte slice, mirroring the
`From<Data> for Protected` impl (lines 18-26): the bytes are copied into
the owned buffer.  The Rust `copy_from_slice` aborts unless the source
slice has exactly 32 bytes; every call site in the source passes exactly
32 bytes, which the development proves where it matters. -/
def Protected.fromData (data : List Nat) : Protected := ⟨data⟩

/-- Destructor of `Protected`, mirroring `impl Drop for Protected`
(lines 36-40): `self.0.iter_mut().for_each(|b| *b = 0)` overwrites every
byte of the buffer with zero. -/
def Protected.dropZeroize (p : Protected) : Protected := ⟨p.buf.map (fun _ => 0)⟩

/-- ExtendedKey of the specification, `ExtendedPrivKey` in `bip32.rs`
(lines 44-47).  The `secret_key` field holds the value of the `k256`
`SecretKey` scalar; `chain_code` is the protected 32-byte buffer. -/
structure ExtendedPrivKey where
  secret_key : Nat
  chain_code : Protected
deriving DecidableEq

/-- Parsing of a `k256::SecretKey` from bytes (`SecretKey::from_bytes`),
the external curve primitive of spec section 6: it succeeds exactly on a
32-byte slice whose big-endian value is a nonzero scalar below the curve
order, and yields that value. -/
def secretKeyFromBytes (bs : List Nat) : Option Nat :=
  if bs.length = 32 ∧ 1 ≤ bytesToNat bs ∧ bytesToNat bs < secpN then some (bytesToNat bs)
  else none

/-- Modelled from the spec: the `is_normal` query of `ChildNumber`
(`bip44.rs` is not under `src/`).  A child number is an unsigned 32-bit
index whose high bit distinguishes hardened (index at least `2 ^ 31`)
from normal derivation (spec section 3); indices are carried as `Nat`
and reduced modulo `2 ^ 32` where the u32 width matters. -/
def childIsNormal (c : Nat) : Bool := c % 2 ^ 32 < 2 ^ 31

/-- Modelled from the spec: the `to_bytes` query of `ChildNumber`
(`bip44.rs` is not under `src/`): the 4-byte big-endian serialization of
the 32-bit index (spec section 3). -/
def childToBytes (c : Nat) : List Nat := natToBytesBE 4 c

/-- Message fed into the child-derivation HMAC (lines 83-96): for a normal
index the compressed-point encoding of the public key of the parent, for a
hardened index one zero byte followed by the raw 32-byte parent scalar
(`SecretKey::to_bytes`), and in both cases the serialized index after it. -/
def childHmacData (k : ExtendedPrivKey) (c : Nat) : List Nat :=
  (if childIsNormal c then pubkeyBytes k.secret_key
   else 0 :: natToBytesBE 32 k.secret_key) ++ childToBytes c

/-- Tail of `ExtendedPrivKey::child` after the HMAC is finalized
(lines 98-111): split the 64-byte output at 32, parse the first half as a
scalar (curve-parameter error if invalid), add the parent scalar modulo
the curve order (`Scalar` addition in `k256`), re-encode and re-parse the
sum (curve-parameter error if invalid, in particular if zero), and build
the child from the derived scalar and the second half as chain code. -/
def childFromI (k : ExtendedPrivKey) (I : List Nat) : Except Error ExtendedPrivKey :=
  match secretKeyFromBytes (I.take 32) with
  | none => .error .Secp256k1
  | some il =>
    match secretKeyFromBytes (natToBytesBE 32 ((il + k.secret_key) % secpN)) with
    | none => .error .Secp256k1
    | some ck => .ok ⟨ck, Protected.fromData (I.drop 32)⟩

/-- Method `ExtendedPrivKey::child` (lines 79-116): key an HMAC-SHA512 instance
with the chain code (keying never fails, so the `InvalidChildNumber`
branch of line 81 is unreachable), feed the branch-dependent data and the
index, and process the finalized output. -/
def ExtendedPrivKey.child (k : ExtendedPrivKey) (c : Nat) : Except Error ExtendedPrivKey :=
  childFromI k (hmacSha512 k.chain_code.buf (childHmacData k c))

/-- ASCII bytes of the string literal `"Bitcoin seed"` keying the
master-derivation HMAC (line 56). -/
def bitcoinSeedKey : List Nat := [0x42, 0x69, 0x74, 0x63, 0x6f, 0x69, 0x6e, 0x20,
  0x73, 0x65, 0x65, 0x64]

/-- Left-to-right fold of the path through child derivation, mirroring the
`for child in path { sk = sk.child(*child)?; }` loop of lines 67-69: the
first error aborts the fold. -/
def derivePath (k : ExtendedPrivKey) : List Nat → Except Error ExtendedPrivKey
  | [] => .ok k
  | c :: rest =>
    match k.child c with
    | .error e => .error e
    | .ok k2 => derivePath k2 rest

/-- Master-key construction from the finalized master HMAC output
(lines 59-65): split at 32 into secret-key and chain-code halves and
parse the first half as a scalar (curve-parameter error if invalid). -/
def masterFromI (I : List Nat) : Except Error ExtendedPrivKey :=
  match secretKeyFromBytes (I.take 32) with
  | none => .error .Secp256k1
  | some sk => .ok ⟨sk, Protected.fromData (I.drop 32)⟩

/-- Method `ExtendedPrivKey::derive` (lines 51-72): HMAC-SHA512 keyed with
`"Bitcoin seed"` over the seed, master-key construction from the output,
then the fold of the path.  The derivation path arrives already parsed
into child numbers; the path-string parser is the external `bip44`
collaborator of spec section 6. -/
def ExtendedPrivKey.derive (seed : List Nat) (path : List Nat) : Except Error ExtendedPrivKey :=
  match masterFromI (hmacSha512 bitcoinSeedKey seed) with
  | .error e => .error e
  | .ok m => derivePath m path

/-- Method `ExtendedPrivKey::secret` (lines 74-77): `SecretKey::to_bytes` produces
the canonical 32-byte big-endian scalar encoding, and `try_into` converts
the slice into a fixed `[u8; 32]` array, failing (the `unwrap` panicking)
if the length were not 32; the `Option` models that conversion. -/
def ExtendedPrivKey.secret (k : ExtendedPrivKey) : Option (List Nat) :=
  if (natToBytesBE 32 k.secret_key).length = 32 then some (natToBytesBE 32 k.secret_key)
  else none

/-- ASCII codes of the 58-character Base58 alphabet. -/
def base58Alphabet : List Nat := [0x31, 0x32, 0x33, 0x34, 0x35, 0x36, 0x37, 0x38, 0x39,
  0x41, 0x42, 0x43, 0x44, 0x45, 0x46, 0x47, 0x48, 0x4a, 0x4b, 0x4c, 0x4d, 0x4e, 0x50,
  0x51, 0x52, 0x53, 0x54, 0x55, 0x56, 0x57, 0x58, 0x59, 0x5a, 0x61, 0x62, 0x63, 0x64,
  0x65, 0x66, 0x67, 0x68, 0x69, 0x6a, 0x6b, 0x6d, 0x6e, 0x6f, 0x70, 0x71, 0x72, 0x73,
  0x74, 0x75, 0x76, 0x77, 0x78, 0x79, 0x7a]

/-- Digits of a Base58 string (given as ASCII codes); `none` if any
character is not in the alphabet. -/
def base58Digits : List Nat → Option (List Nat)
  | [] => some []
  | ch :: rest =>
    match base58Alphabet.findIdx? (fun a => a == ch), base58Digits rest with
    | some d, some ds => some (d :: ds)
    | _, _ => none

/-- Fuel-indexed minimal big-endian byte encoding (no leading zero bytes);
the fuel bounds the number of bytes produced. -/
def natMinBytesAux : Nat → Nat → List Nat
  | 0, _ => []
  | fuel + 1, v => if v = 0 then [] else natMinBytesAux fuel (v / 256) ++ [v % 256]

/-- Base58 decoding (`FromBase58` of the external `base58` crate, spec
section 6): reject invalid characters, interpret the digits in base 58,
and emit one leading zero byte per leading `1` character followed by the
minimal big-endian encoding of the value. -/
def fromBase58 (s : List Nat) : Option (List Nat) :=
  match base58Digits s with
  | none => none
  | some ds =>
    some (List.replicate (ds.takeWhile (fun d => d == 0)).length 0 ++
      natMinBytesAux s.length (ds.foldl (fun acc d => acc * 58 + d) 0))

/-- Body of `from_str` on an 82-byte decode (lines 132-136): chain code
from bytes 13 to 44 inclusive, secret-scalar candidate from bytes 46 to
77 inclusive (curve-parameter error if invalid); the version, depth,
parent-fingerprint, child-number and checksum bytes are not read. -/
def parse82 (data : List Nat) : Except Error ExtendedPrivKey :=
  match secretKeyFromBytes ((data.drop 46).take 32) with
  | none => .error .Secp256k1
  | some sk => .ok ⟨sk, Protected.fromData ((data.drop 13).take 32)⟩

/-- Impl `FromStr for ExtendedPrivKey` (lines 120-138): Base58-decode the text
(invalid-extended-priv-key error on failure), require exactly 82 decoded
bytes (same error otherwise), then extract chain code and scalar. -/
def ExtendedPrivKey.fromStr (s : List Nat) : Except Error ExtendedPrivKey :=
  match fromBase58 s with
  | none => .error .InvalidExtendedPrivKey
  | some data =>
    if data.length ≠ 82 then .error .InvalidExtendedPrivKey
    else parse82 data

/-- Modelled from the spec: the seed of the round-trip scenario.  The
specification fixes the BIP-39 mnemonic (the 24 words from "panda" to
"inside") with empty passphrase; mnemonic-to-seed conversion is an
external collaborator (spec sections 1 and 6, the `bip39` crate used only
in tests), namely PBKDF2-HMAC-SHA512 over the mnemonic sentence with salt
`"mnemonic"` and 2048 iterations, producing these 64 bytes.  Re-running
that conversion in the 600-second kernel budget is infeasible (about 8200
SHA-512 compressions), so the output of the collaborator is taken as given
here; everything from the seed onward is computed inside the kernel. -/
def testSeed : List Nat := [0x3e, 0x06, 0x6d, 0x7d, 0xee, 0x2d, 0xbf, 0x8f, 0xcd, 0x3f,
  0xe2, 0x40, 0xa3, 0x97, 0x56, 0x58, 0xca, 0x11, 0x8a, 0x8f, 0x6f, 0x4c, 0xa8, 0x1c,
  0xf9, 0x91, 0x04, 0x94, 0x46, 0x04, 0xb0, 0x5a, 0x50, 0x90, 0xa7, 0x9d, 0x99, 0xe5,
  0x45, 0x70, 0x4b, 0x91, 0x4c, 0xa0, 0x39, 0x7f, 0xed, 0xb8, 0x2f, 0xd0, 0x0f, 0xd6,
  0xa7, 0x20, 0x98, 0x70, 0x37, 0x09, 0xc8, 0x91, 0xa0, 0x65, 0xee, 0x49]

/-- Modelled from the spec: the parse of the path string `m/44h/60h/0h/0/0`
(apostrophes written `h` here) by the external `bip44` path parser
(`bip44.rs` is not under `src/`): three hardened indices (`2 ^ 31` plus
44, 60, 0) followed by two normal indices 0, 0 (spec sections 3 and 6). -/
def testDerivationPath : List Nat := [0x8000002c, 0x8000003c, 0x80000000, 0, 0]

/-- Expected secret scalar of the round-trip scenario, the exact 32-byte
literal from the reference test (line 150). -/
def expectedTestSecret : List Nat := [0xff, 0x1e, 0x68, 0xeb, 0x7b, 0xf2, 0xf4, 0x86,
  0x51, 0xc4, 0x7e, 0xf0, 0x17, 0x7e, 0xb8, 0x15, 0x85, 0x73, 0x22, 0x25, 0x7c, 0x58,
  0x94, 0xbb, 0x4c, 0xfd, 0x11, 0x76, 0xc9, 0x98, 0x93, 0x14]

/-- Concrete parent key exercising child derivation. -/
def kW2 : ExtendedPrivKey :=
  ⟨0x1111111111111111111111111111111111111111111111111111111111111111,
   ⟨List.replicate 32 0x22⟩⟩

/-- Child of `kW2` at hardened index `0x80000001`. -/
def kW2c : ExtendedPrivKey :=
  ⟨0x5c8b64ca40d925e5a2968e5a7a5c7a322c4e716f0e11da2155094315ebf82eec,
   ⟨[0x9a, 0x79, 0x69, 0x4a, 0x4b, 0x60, 0x75, 0xf7, 0x57, 0xcd, 0x02, 0xbf, 0xf0, 0x72,
     0x6d, 0xa9, 0xff, 0x27, 0xb9, 0x5b, 0x5b, 0x02, 0xb4, 0x6a, 0x44, 0x80, 0x00, 0x6e,
     0xda, 0x16, 0x0b, 0x37]⟩⟩

/-- Parent key whose scalar is the curve order minus one, so that an HMAC
half of value 1 drives the derived sum to zero. -/
def cexC3Key : ExtendedPrivKey := ⟨secpN - 1, ⟨List.replicate 32 0⟩⟩

/-- A 64-byte HMAC output whose first half has scalar value 1. -/
def cexC3I : List Nat := List.replicate 31 0 ++ [1] ++ List.replicate 32 0

/-- Concrete parent key for the amended zero-sum statement. -/
def kW3 : ExtendedPrivKey := ⟨5, ⟨List.replicate 32 9⟩⟩

/-- A 64-byte HMAC output whose first half has scalar value 7. -/
def iW3 : List Nat := List.replicate 31 0 ++ [7] ++ List.replicate 32 3

/-- Concrete parent key exercising both HMAC input branches. -/
def kW4 : ExtendedPrivKey := ⟨1, ⟨List.replicate 32 0x33⟩⟩

/-- Master key of the seed `[1, 2, 3]`. -/
def kW5 : ExtendedPrivKey :=
  ⟨0x90267da69865a22a1866ddd1e361821ac39fa1eb32f4086348cff184f81df317,
   ⟨[0x3a, 0x4f, 0x0a, 0xce, 0xb1, 0x01, 0x3a, 0xc7, 0xd2, 0x13, 0xbf, 0xed, 0x40, 0x8d,
     0x37, 0xbf, 0x2e, 0xa6, 0x6c, 0x13, 0x8a, 0x0a, 0x1e, 0x22, 0xe9, 0x10, 0x6e, 0xda,
     0x9a, 0xc0, 0xec, 0x14]⟩⟩

/-- Master key of the seed `[4, 5, 6]`. -/
def kW8 : ExtendedPrivKey :=
  ⟨0x34758240043a00dddfc248ef1928fe9a8d1bcc5f8d650778e288c7bcfb6d2187,
   ⟨[0xf6, 0x34, 0x17, 0xe9, 0x8a, 0x33, 0x88, 0xc8, 0xeb, 0xdb, 0xe9, 0x4d, 0x35, 0x56,
     0xe5, 0xd5, 0xd3, 0x48, 0x49, 0xc6, 0x8b, 0xe9, 0xd3, 0x28, 0x57, 0xdc, 0xd6, 0x5e,
     0x5b, 0xdb, 0x25, 0x75]⟩⟩

/-- Base58 text (as ASCII codes) decoding to the 82 bytes of `dataW7`. -/
def sW7 : List Nat := [0x72, 0x53, 0x6e, 0x42, 0x48, 0x66, 0x70, 0x75, 0x6b, 0x67, 0x4c,
  0x4e, 0x69, 0x65, 0x4d, 0x77, 0x33, 0x4b, 0x79, 0x62, 0x48, 0x4c, 0x33, 0x69, 0x54,
  0x53, 0x51, 0x39, 0x61, 0x68, 0x58, 0x72, 0x55, 0x48, 0x6e, 0x67, 0x59, 0x4b, 0x61,
  0x36, 0x38, 0x34, 0x58, 0x46, 0x56, 0x53, 0x47, 0x32, 0x73, 0x47, 0x6a, 0x71, 0x67,
  0x61, 0x47, 0x46, 0x68, 0x75, 0x64, 0x4d, 0x41, 0x36, 0x5a, 0x43, 0x62, 0x31, 0x70,
  0x6a, 0x5a, 0x45, 0x32, 0x56, 0x70, 0x66, 0x55, 0x58, 0x53, 0x56, 0x41, 0x35, 0x6b,
  0x38, 0x4b, 0x6e, 0x48, 0x35, 0x32, 0x41, 0x55, 0x53, 0x4a, 0x6d, 0x6e, 0x4b, 0x59,
  0x70, 0x63, 0x39, 0x32, 0x73, 0x73, 0x77, 0x63, 0x70, 0x43, 0x43, 0x43, 0x42, 0x74,
  0x78, 0x36]

/-- An 82-byte serialized-extended-key image: 13 filler bytes, a 32-byte
chain code of `0xaa` bytes, one filler byte, a 32-byte scalar of value 42,
and 4 filler checksum bytes. -/
def dataW7 : List Nat := List.replicate 13 4 ++ List.replicate 32 0xaa ++ [9] ++
  (List.replicate 31 0 ++ [0x2a]) ++ List.replicate 4 7

/-- A protected buffer holding 32 nonzero bytes. -/
def pW9 : Protected := ⟨List.replicate 32 7⟩

/-- An extended key with a small valid scalar. -/
def kW10 : ExtendedPrivKey := ⟨3, ⟨List.replicate 32 1⟩⟩

deriving instance DecidableEq for Except

theorem natToBytesBE_length (w v : Nat) : (natToBytesBE w v).length = w := by
  induction w generalizing v with
  | zero => rfl
  | succ w ih => simp [natToBytesBE, ih]

theorem bytesToNat_append (bs : List Nat) (b : Nat) :
    bytesToNat (bs ++ [b]) = 256 * bytesToNat bs + b := by
  unfold bytesToNat
  rw [List.foldl_append]
  simp [List.foldl]
  ring

theorem bytesToNat_natToBytesBE (w v : Nat) :
    bytesToNat (natToBytesBE w v) = v % 2 ^ (8 * w) := by
  induction w generalizing v with
  | zero => simp [natToBytesBE, bytesToNat, Nat.mod_one]
  | succ w ih =>
    rw [natToBytesBE, bytesToNat_append, ih]
    have h2 : 2 ^ (8 * (w + 1)) = 256 * 2 ^ (8 * w) := by
      rw [Nat.mul_succ, pow_add]
      ring
    rw [h2, Nat.mod_mul]
    ring

theorem secpN_lt_two256 : secpN < 2 ^ 256 := by decide

theorem bytesToNat_natToBytesBE32 (v : Nat) (h : v < 2 ^ 256) :
    bytesToNat (natToBytesBE 32 v) = v := by
  rw [bytesToNat_natToBytesBE]
  exact Nat.mod_eq_of_lt h

theorem sha512Compress_length (st : List Nat) (w : Nat) :
    (sha512Compress st w).length = st.length := by
  unfold sha512Compress
  split
  · rfl
  · rfl

theorem sha512Words_length (st l : List Nat) : st.length = 8 → (sha512Words st l).length = 8 := by
  induction st, l using sha512Words.induct with
  | case1 st w0 w1 w2 w3 w4 w5 w6 w7 w8 w9 w10 w11 w12 w13 w14 w15 rest ih =>
    intro h
    rw [sha512Words]
    exact ih (by rw [sha512Compress_length]; exact h)
  | case2 st l hx =>
    intro h
    unfold sha512Words
    split
    · exact (hx _ _ _ _ _ _ _ _ _ _ _ _ _ _ _ _ _ rfl).elim
    · exact h

theorem foldr_wordBytes_length (st : List Nat) :
    (st.foldr (fun wd acc => natToBytesBE 8 wd ++ acc) []).length = 8 * st.length := by
  induction st with
  | nil => rfl
  | cons a t ih => simp [List.foldr, ih, natToBytesBE_length]; ring

theorem sha512_length (msg : List Nat) : (sha512 msg).length = 64 := by
  unfold sha512
  rw [foldr_wordBytes_length, sha512Words_length _ _ (by rfl)]

theorem hmacSha512_length (key msg : List Nat) : (hmacSha512 key msg).length = 64 := by
  unfold hmacSha512
  exact sha512_length _

theorem secretKeyFromBytes_some {bs : List Nat} {v : Nat}
    (h : secretKeyFromBytes bs = some v) :
    bs.length = 32 ∧ v = bytesToNat bs ∧ 1 ≤ v ∧ v < secpN := by
  unfold secretKeyFromBytes at h
  split_ifs at h with h1
  injection h with h3
  exact ⟨h1.1, h3.symm, h3 ▸ h1.2.1, h3 ▸ h1.2.2⟩

theorem secretKeyFromBytes_of_valid {v : Nat} (h1 : 1 ≤ v) (h2 : v < secpN) :
    secretKeyFromBytes (natToBytesBE 32 v) = some v := by
  have hv : bytesToNat (natToBytesBE 32 v) = v :=
    bytesToNat_natToBytesBE32 v (h2.trans secpN_lt_two256)
  unfold secretKeyFromBytes
  rw [natToBytesBE_length, hv]
  simp [h1, h2]

theorem childFromI_ok {k : ExtendedPrivKey} {I : List Nat} {k2 : ExtendedPrivKey}
    (h : childFromI k I = .ok k2) :
    ∃ il, secretKeyFromBytes (I.take 32) = some il ∧
      k2.secret_key = (il + k.secret_key) % secpN ∧
      1 ≤ k2.secret_key ∧ k2.secret_key < secpN ∧
      k2.chain_code.buf = I.drop 32 := by
  unfold childFromI at h
  cases h1 : secretKeyFromBytes (I.take 32) with
  | none =>
    simp only [h1] at h
    exact Except.noConfusion h
  | some il =>
    simp only [h1] at h
    cases h2 : secretKeyFromBytes (natToBytesBE 32 ((il + k.secret_key) % secpN)) with
    | none =>
      simp only [h2] at h
      exact Except.noConfusion h
    | some ck =>
      simp only [h2] at h
      injection h with h3
      obtain ⟨-, hck, hck1, hckN⟩ := secretKeyFromBytes_some h2
      have hlt : (il + k.secret_key) % secpN < 2 ^ 256 :=
        (Nat.mod_lt _ (by decide)).trans secpN_lt_two256
      have hsum : ck = (il + k.secret_key) % secpN := by
        rw [hck, bytesToNat_natToBytesBE32 _ hlt]
      subst h3
      exact ⟨il, rfl, hsum, hck1, hckN, rfl⟩

theorem childFromI_isOk {k : ExtendedPrivKey} {I : List Nat} {il : Nat}
    (hil : secretKeyFromBytes (I.take 32) = some il)
    (hnz : (il + k.secret_key) % secpN ≠ 0) :
    childFromI k I = .ok ⟨(il + k.secret_key) % secpN, ⟨I.drop 32⟩⟩ := by
  unfold childFromI
  simp only [hil, secretKeyFromBytes_of_valid (Nat.one_le_iff_ne_zero.mpr hnz)
    (Nat.mod_lt _ (by decide))]
  rfl

theorem childFromI_zero_sum {k : ExtendedPrivKey} {I : List Nat} {il : Nat}
    (hil : secretKeyFromBytes (I.take 32) = some il)
    (hz : (il + k.secret_key) % secpN = 0) :
    childFromI k I = .error .Secp256k1 := by
  unfold childFromI
  have hnone : secretKeyFromBytes (natToBytesBE 32 ((il + k.secret_key) % secpN)) = none := by
    rw [hz]
    decide
  simp only [hil, hnone]

theorem child_ok {k : ExtendedPrivKey} {c : Nat} {k2 : ExtendedPrivKey}
    (h : ExtendedPrivKey.child k c = .ok k2) :
    ∃ il, secretKeyFromBytes ((hmacSha512 k.chain_code.buf (childHmacData k c)).take 32)
        = some il ∧
      k2.secret_key = (il + k.secret_key) % secpN ∧
      1 ≤ k2.secret_key ∧ k2.secret_key < secpN ∧
      k2.chain_code.buf = (hmacSha512 k.chain_code.buf (childHmacData k c)).drop 32 :=
  childFromI_ok h

theorem derivePath_nil (k : ExtendedPrivKey) : derivePath k [] = .ok k := rfl

theorem derivePath_cons_error {k : ExtendedPrivKey} {c : Nat} {e : Error} {rest : List Nat}
    (h : k.child c = .error e) : derivePath k (c :: rest) = .error e := by
  rw [derivePath]
  simp only [h]

theorem derivePath_cons_ok {k k2 : ExtendedPrivKey} {c : Nat} {rest : List Nat}
    (h : k.child c = .ok k2) : derivePath k (c :: rest) = derivePath k2 rest := by
  rw [derivePath]
  simp only [h]

theorem derivePath_ok_valid {p : List Nat} {k k2 : ExtendedPrivKey}
    (hk : 1 ≤ k.secret_key ∧ k.secret_key < secpN)
    (h : derivePath k p = .ok k2) :
    1 ≤ k2.secret_key ∧ k2.secret_key < secpN := by
  induction p generalizing k with
  | nil =>
    rw [derivePath_nil] at h
    injection h with h2
    subst h2
    exact hk
  | cons c rest ih =>
    cases hc : ExtendedPrivKey.child k c with
    | error e =>
      rw [derivePath_cons_error hc] at h
      exact Except.noConfusion h
    | ok kc =>
      rw [derivePath_cons_ok hc] at h
      obtain ⟨il, -, -, h1, hN, -⟩ := child_ok hc
      exact ih ⟨h1, hN⟩ h

theorem derivePath_append (p q : List Nat) (k : ExtendedPrivKey) :
    derivePath k (p ++ q) = Except.bind (derivePath k p) (fun k2 => derivePath k2 q) := by
  induction p generalizing k with
  | nil => rfl
  | cons c rest ih =>
    rw [List.cons_append]
    cases hc : ExtendedPrivKey.child k c with
    | error e => rw [derivePath_cons_error hc, derivePath_cons_error hc]; rfl
    | ok kc => rw [derivePath_cons_ok hc, derivePath_cons_ok hc, ih kc]

theorem derivePath_foldlM (p : List Nat) (k : ExtendedPrivKey) :
    derivePath k p = List.foldlM ExtendedPrivKey.child k p := by
  induction p generalizing k with
  | nil => rfl
  | cons c rest ih =>
    rw [List.foldlM_cons]
    cases hc : ExtendedPrivKey.child k c with
    | error e => rw [derivePath_cons_error hc]; rfl
    | ok kc => rw [derivePath_cons_ok hc, ih kc]; rfl

theorem derivePath_singleton (k : ExtendedPrivKey) (c : Nat) :
    derivePath k [c] = k.child c := by
  cases hc : ExtendedPrivKey.child k c with
  | error e => rw [derivePath_cons_error hc]
  | ok kc => rw [derivePath_cons_ok hc, derivePath_nil]

theorem except_bind_assoc {α β γ : Type} (x : Except Error α)
    (f : α → Except Error β) (g : β → Except Error γ) :
    Except.bind (Except.bind x f) g = Except.bind x (fun a => Except.bind (f a) g) := by
  cases x <;> rfl

theorem secretKeyFromBytes_none_iff {bs : List Nat} (hlen : bs.length = 32) :
    secretKeyFromBytes bs = none ↔
      (bytesToNat bs = 0 ∨ secpN ≤ bytesToNat bs) := by
  unfold secretKeyFromBytes
  split_ifs with h
  · exact iff_of_false (by simp) (by omega)
  · exact iff_of_true rfl (by omega)

theorem hmac_take32_length (key msg : List Nat) :
    ((hmacSha512 key msg).take 32).length = 32 := by
  simp [List.length_take, hmacSha512_length]

theorem masterFromI_ok {I : List Nat} {k : ExtendedPrivKey}
    (h : masterFromI I = .ok k) :
    k.secret_key = bytesToNat (I.take 32) ∧ k.chain_code.buf = I.drop 32 ∧
    1 ≤ k.secret_key ∧ k.secret_key < secpN := by
  unfold masterFromI at h
  cases h1 : secretKeyFromBytes (I.take 32) with
  | none =>
    simp only [h1] at h
    exact Except.noConfusion h
  | some sk =>
    simp only [h1] at h
    injection h with h2
    subst h2
    obtain ⟨-, hv, h3, hN⟩ := secretKeyFromBytes_some h1
    exact ⟨hv, rfl, h3, hN⟩

theorem masterFromI_error_iff (I : List Nat) (hlen : (I.take 32).length = 32) :
    masterFromI I = .error .Secp256k1 ↔
      (bytesToNat (I.take 32) = 0 ∨ secpN ≤ bytesToNat (I.take 32)) := by
  rw [← secretKeyFromBytes_none_iff hlen]
  unfold masterFromI
  cases h1 : secretKeyFromBytes (I.take 32) with
  | none => simp
  | some sk => simp

theorem derive_eq_bind_master (seed path : List Nat) :
    ExtendedPrivKey.derive seed path =
      Except.bind (masterFromI (hmacSha512 bitcoinSeedKey seed))
        (fun m => derivePath m path) := by
  unfold ExtendedPrivKey.derive
  cases masterFromI (hmacSha512 bitcoinSeedKey seed) <;> rfl

theorem derive_nil (seed : List Nat) :
    ExtendedPrivKey.derive seed [] = masterFromI (hmacSha512 bitcoinSeedKey seed) := by
  rw [derive_eq_bind_master]
  cases masterFromI (hmacSha512 bitcoinSeedKey seed) <;> rfl

theorem derive_nil_ok {seed : List Nat} {k : ExtendedPrivKey}
    (h : ExtendedPrivKey.derive seed [] = .ok k) :
    k.secret_key = bytesToNat ((hmacSha512 bitcoinSeedKey seed).take 32) ∧
    k.chain_code.buf = (hmacSha512 bitcoinSeedKey seed).drop 32 ∧
    1 ≤ k.secret_key ∧ k.secret_key < secpN := by
  rw [derive_nil] at h
  exact masterFromI_ok h

theorem derive_nil_error_iff (seed : List Nat) :
    ExtendedPrivKey.derive seed [] = .error .Secp256k1 ↔
      (bytesToNat ((hmacSha512 bitcoinSeedKey seed).take 32) = 0 ∨
        secpN ≤ bytesToNat ((hmacSha512 bitcoinSeedKey seed).take 32)) := by
  rw [derive_nil]
  exact masterFromI_error_iff _ (hmac_take32_length bitcoinSeedKey seed)

theorem derive_as_bind (seed path : List Nat) :
    ExtendedPrivKey.derive seed path =
      Except.bind (ExtendedPrivKey.derive seed []) (fun k => derivePath k path) := by
  rw [derive_eq_bind_master, derive_nil]

theorem pubkeyBytes_shape (k : Nat) :
    pubkeyBytes k = [0] ∨
      ∃ x, pubkeyBytes k = 2 :: natToBytesBE 32 x ∨ pubkeyBytes k = 3 :: natToBytesBE 32 x := by
  unfold pubkeyBytes
  cases jToAffine (jMul k secpG) with
  | none => exact Or.inl rfl
  | some p =>
    obtain ⟨x, y⟩ := p
    by_cases hy : y % 2 = 0
    · exact Or.inr ⟨x, Or.inl (by simp [hy])⟩
    · exact Or.inr ⟨x, Or.inr (by simp [hy])⟩

theorem childHmacData_normal (k : ExtendedPrivKey) (c : Nat) (hc : c % 2 ^ 32 < 2 ^ 31) :
    childHmacData k c = pubkeyBytes k.secret_key ++ natToBytesBE 4 c := by
  have hb : childIsNormal c = true := decide_eq_true hc
  simp [childHmacData, childToBytes, hb]

theorem childHmacData_hardened (k : ExtendedPrivKey) (c : Nat) (hc : ¬ c % 2 ^ 32 < 2 ^ 31) :
    childHmacData k c = (0 :: natToBytesBE 32 k.secret_key) ++ natToBytesBE 4 c := by
  have hb : childIsNormal c = false := decide_eq_false hc
  simp [childHmacData, childToBytes, hb]

theorem childHmacData_branches_differ (k : ExtendedPrivKey) (c c' : Nat)
    (hc : c % 2 ^ 32 < 2 ^ 31) (hc' : ¬ c' % 2 ^ 32 < 2 ^ 31) :
    childHmacData k c ≠ childHmacData k c' := by
  intro heq
  rw [childHmacData_normal k c hc, childHmacData_hardened k c' hc'] at heq
  rcases pubkeyBytes_shape k.secret_key with hp | ⟨x, hp | hp⟩ <;> rw [hp] at heq
  · have hlen := congrArg List.length heq
    simp [natToBytesBE_length] at hlen
  · simp at heq
  · simp at heq

/-- C9: when a `Protected` (SecretBuffer) value is destroyed, its
destructor overwrites every one of its 32 bytes with zero, so no
chain-code byte remains in the buffer after the drop. -/
theorem c9_drop_zeroizes_buffer (p : Protected) (h : p.buf.length = 32) :
    (Protected.dropZeroize p).buf = List.replicate 32 0 ∧
    ∀ b ∈ (Protected.dropZeroize p).buf, b = 0 := by
  constructor
  · unfold Protected.dropZeroize
    rw [List.map_const', h]
  · intro b hb
    unfold Protected.dropZeroize at hb
    obtain ⟨a, -, ha⟩ := List.mem_map.mp hb
    exact ha.symm

theorem c9_drop_zeroizes_buffer_witness :
    pW9.buf.length = 32 ∧
    ((Protected.dropZeroize pW9).buf = List.replicate 32 0 ∧
      ∀ b ∈ (Protected.dropZeroize pW9).buf, b = 0) :=
  ⟨by decide, c9_drop_zeroizes_buffer pW9 (by decide)⟩

/-- C10: for every extended key with an in-range scalar, `secret` returns
(never panicking) exactly the 32-byte canonical big-endian encoding of
the secret scalar: the `try_into` conversion succeeds, the result has
length 32, and it decodes back to the scalar. -/
theorem c10_secret_total (k : ExtendedPrivKey) (h : k.secret_key < secpN) :
    ExtendedPrivKey.secret k = some (natToBytesBE 32 k.secret_key) ∧
    (natToBytesBE 32 k.secret_key).length = 32 ∧
    bytesToNat (natToBytesBE 32 k.secret_key) = k.secret_key := by
  refine ⟨?_, natToBytesBE_length _ _, bytesToNat_natToBytesBE32 _ (h.trans secpN_lt_two256)⟩
  unfold ExtendedPrivKey.secret
  rw [if_pos (natToBytesBE_length 32 k.secret_key)]

theorem c10_secret_total_witness :
    kW10.secret_key < secpN ∧
    (ExtendedPrivKey.secret kW10 = some (natToBytesBE 32 kW10.secret_key) ∧
      (natToBytesBE 32 kW10.secret_key).length = 32 ∧
      bytesToNat (natToBytesBE 32 kW10.secret_key) = kW10.secret_key) :=
  ⟨by decide, c10_secret_total kW10 (by decide)⟩

/-- C3 counterexample: the claim asserts that child derivation never fails
once the first HMAC half parses as a valid scalar, even when the sum
`(I_L + parent) mod n` is zero.  At the concrete parent whose scalar is
`n - 1` and the concrete HMAC output whose first half is the scalar 1,
the first half parses as the valid scalar 1, the sum is the zero scalar,
and the derivation tail fails with the curve-parameter error, because the
sum is re-parsed through `SecretKey::from_bytes`, which rejects zero. -/
theorem c3_zero_sum_is_rejected_counterexample :
    secretKeyFromBytes (cexC3I.take 32) = some 1 ∧
    (1 + cexC3Key.secret_key) % secpN = 0 ∧
    childFromI cexC3Key cexC3I = .error .Secp256k1 := by decide

/-- C3 (amended): in the tail of child derivation after the HMAC, only
scalar-parse failures are rejected, but these include the zero sum: given
that `I_L` parses as a valid scalar `v`, the derivation fails (with the
curve-parameter error) when the sum `(v + parent) mod n` is zero, and succeeds
with exactly that sum as the child scalar otherwise. -/
theorem c3_child_rejects_exactly_invalid_scalars (k : ExtendedPrivKey) (I : List Nat)
    (v : Nat) (hv : secretKeyFromBytes (I.take 32) = some v) :
    ((v + k.secret_key) % secpN = 0 → childFromI k I = .error .Secp256k1) ∧
    ((v + k.secret_key) % secpN ≠ 0 →
      childFromI k I = .ok ⟨(v + k.secret_key) % secpN, ⟨I.drop 32⟩⟩) :=
  ⟨fun hz => childFromI_zero_sum hv hz, fun hnz => childFromI_isOk hv hnz⟩

theorem c3_child_rejects_exactly_invalid_scalars_witness :
    secretKeyFromBytes (iW3.take 32) = some 7 ∧
    (((7 + kW3.secret_key) % secpN = 0 → childFromI kW3 iW3 = .error .Secp256k1) ∧
      ((7 + kW3.secret_key) % secpN ≠ 0 →
        childFromI kW3 iW3 = .ok ⟨(7 + kW3.secret_key) % secpN, ⟨iW3.drop 32⟩⟩)) :=
  ⟨by decide, c3_child_rejects_exactly_invalid_scalars kW3 iW3 7 (by decide)⟩

/-- C2: whenever child derivation succeeds, the secret scalar of the child is
`(I_L + parent) mod n` for the curve order `n` and `I_L` the value of the
first 32 bytes of the HMAC-SHA512 output, and its chain code is `I_R`,
the last 32 bytes of that output.  The parent is left unmodified: `child`
is embedded as a pure function of the parent value, mirroring the
borrowing `&self` receiver, so no mutation is expressible. -/
theorem c2_child_scalar_and_chain (k : ExtendedPrivKey) (c : Nat) (k2 : ExtendedPrivKey)
    (h : ExtendedPrivKey.child k c = .ok k2) :
    k2.secret_key =
      (bytesToNat ((hmacSha512 k.chain_code.buf (childHmacData k c)).take 32) +
        k.secret_key) % secpN ∧
    k2.chain_code.buf = (hmacSha512 k.chain_code.buf (childHmacData k c)).drop 32 := by
  obtain ⟨il, hil, hsum, -, -, hchain⟩ := child_ok h
  obtain ⟨-, hv, -, -⟩ := secretKeyFromBytes_some hil
  exact ⟨hv ▸ hsum, hchain⟩

theorem c2_child_scalar_and_chain_witness :
    ExtendedPrivKey.child kW2 0x80000001 = .ok kW2c ∧
    (kW2c.secret_key =
      (bytesToNat ((hmacSha512 kW2.chain_code.buf (childHmacData kW2 0x80000001)).take 32) +
        kW2.secret_key) % secpN ∧
    kW2c.chain_code.buf =
      (hmacSha512 kW2.chain_code.buf (childHmacData kW2 0x80000001)).drop 32) :=
  by
  have h : ExtendedPrivKey.child kW2 0x80000001 = .ok kW2c := by decide
  exact ⟨h, c2_child_scalar_and_chain kW2 0x80000001 kW2c h⟩

/-- C4: in child derivation the HMAC is keyed with the chain code of the parent;
a normal index feeds the compressed-point encoding of the public key of the
parent followed by the 4-byte big-endian index, a hardened index feeds one
zero byte and the raw 32-byte parent scalar followed by the 4-byte
big-endian index, and the two branches always feed different byte strings
into the HMAC. -/
theorem c4_hmac_inputs (k : ExtendedPrivKey) (c c' : Nat)
    (hc : c < 2 ^ 31) (hc1 : 2 ^ 31 ≤ c') (hc2 : c' < 2 ^ 32) :
    ExtendedPrivKey.child k c
        = childFromI k (hmacSha512 k.chain_code.buf (childHmacData k c)) ∧
    childHmacData k c = pubkeyBytes k.secret_key ++ natToBytesBE 4 c ∧
    childHmacData k c' = (0 :: natToBytesBE 32 k.secret_key) ++ natToBytesBE 4 c' ∧
    childHmacData k c ≠ childHmacData k c' := by
  have h1 : c % 2 ^ 32 < 2 ^ 31 := by omega
  have h2 : ¬ c' % 2 ^ 32 < 2 ^ 31 := by
    rw [Nat.mod_eq_of_lt hc2]
    omega
  exact ⟨rfl, childHmacData_normal k c h1, childHmacData_hardened k c' h2,
    childHmacData_branches_differ k c c' h1 h2⟩

theorem c4_hmac_inputs_witness :
    ((0 : Nat) < 2 ^ 31 ∧ 2 ^ 31 ≤ (2 ^ 31 : Nat) ∧ (2 ^ 31 : Nat) < 2 ^ 32) ∧
    (ExtendedPrivKey.child kW4 0
        = childFromI kW4 (hmacSha512 kW4.chain_code.buf (childHmacData kW4 0)) ∧
      childHmacData kW4 0 = pubkeyBytes kW4.secret_key ++ natToBytesBE 4 0 ∧
      childHmacData kW4 (2 ^ 31)
        = (0 :: natToBytesBE 32 kW4.secret_key) ++ natToBytesBE 4 (2 ^ 31) ∧
      childHmacData kW4 0 ≠ childHmacData kW4 (2 ^ 31)) :=
  ⟨⟨by decide, by decide, by decide⟩,
    c4_hmac_inputs kW4 0 (2 ^ 31) (by decide) (by decide) (by decide)⟩

/-- C5: master derivation computes `I` as HMAC-SHA512 keyed with the ASCII
bytes of `"Bitcoin seed"` over the seed (64 bytes, split into `I_L` and
`I_R` at 32); a successful master key has secret scalar `I_L` and chain
code `I_R`, and master derivation fails with the curve-parameter error
exactly when `I_L` is zero or at least the curve order.  The seed is an
arbitrary byte list (no length restriction) and the resulting key retains
only the two halves of `I`, not the seed. -/
theorem c5_master_derivation (seed : List Nat) :
    (hmacSha512 bitcoinSeedKey seed).length = 64 ∧
    (∀ k, ExtendedPrivKey.derive seed [] = .ok k →
      k.secret_key = bytesToNat ((hmacSha512 bitcoinSeedKey seed).take 32) ∧
      k.chain_code.buf = (hmacSha512 bitcoinSeedKey seed).drop 32) ∧
    (ExtendedPrivKey.derive seed [] = .error .Secp256k1 ↔
      (bytesToNat ((hmacSha512 bitcoinSeedKey seed).take 32) = 0 ∨
        secpN ≤ bytesToNat ((hmacSha512 bitcoinSeedKey seed).take 32))) :=
  ⟨hmacSha512_length _ _,
   fun _ h => ⟨(derive_nil_ok h).1, (derive_nil_ok h).2.1⟩,
   derive_nil_error_iff seed⟩

theorem c5_master_derivation_witness :
    ExtendedPrivKey.derive [1, 2, 3] [] = .ok kW5 ∧
    (kW5.secret_key = bytesToNat ((hmacSha512 bitcoinSeedKey [1, 2, 3]).take 32) ∧
      kW5.chain_code.buf = (hmacSha512 bitcoinSeedKey [1, 2, 3]).drop 32) :=
  by
  have h : ExtendedPrivKey.derive [1, 2, 3] [] = .ok kW5 := by decide
  exact ⟨h, (c5_master_derivation [1, 2, 3]).2.1 kW5 h⟩

/-- C6: path derivation is the left-to-right fold of child derivation over
the master key — `derive seed p` equals binding the master key through
`List.foldlM child` — and deriving a path extended by one index equals
deriving the path and then taking one child step; errors from an
intermediate step propagate immediately through the fold, and no partial
result is returned. -/
theorem c6_fold_equivalence (seed : List Nat) (p : List Nat) (i : Nat) :
    ExtendedPrivKey.derive seed p =
      Except.bind (ExtendedPrivKey.derive seed [])
        (fun k => List.foldlM ExtendedPrivKey.child k p) ∧
    ExtendedPrivKey.derive seed (p ++ [i]) =
      Except.bind (ExtendedPrivKey.derive seed p) (fun k => k.child i) := by
  constructor
  · rw [derive_as_bind seed p]
    cases ExtendedPrivKey.derive seed [] with
    | error e => rfl
    | ok k => exact derivePath_foldlM p k
  · rw [derive_as_bind seed (p ++ [i]), derive_as_bind seed p, except_bind_assoc]
    cases ExtendedPrivKey.derive seed [] with
    | error e => rfl
    | ok k =>
      show derivePath k (p ++ [i]) = Except.bind (derivePath k p) (fun k2 => k2.child i)
      rw [derivePath_append]
      congr 1
      funext k2
      exact derivePath_singleton k2 i

theorem parse82_ok {d : List Nat} {k : ExtendedPrivKey} (h : parse82 d = .ok k) :
    k.secret_key = bytesToNat ((d.drop 46).take 32) ∧
    k.chain_code.buf = (d.drop 13).take 32 ∧
    1 ≤ k.secret_key ∧ k.secret_key < secpN := by
  unfold parse82 at h
  cases h1 : secretKeyFromBytes ((d.drop 46).take 32) with
  | none =>
    simp only [h1] at h
    exact Except.noConfusion h
  | some sk =>
    simp only [h1] at h
    injection h with h2
    subst h2
    obtain ⟨-, hv, h3, hN⟩ := secretKeyFromBytes_some h1
    exact ⟨hv, rfl, h3, hN⟩

theorem parse82_error_iff (d : List Nat) :
    parse82 d = .error .Secp256k1 ↔ secretKeyFromBytes ((d.drop 46).take 32) = none := by
  unfold parse82
  cases h1 : secretKeyFromBytes ((d.drop 46).take 32) with
  | none => simp
  | some sk => simp

theorem parse82_not_invalid (d : List Nat) :
    parse82 d ≠ .error .InvalidExtendedPrivKey := by
  unfold parse82
  cases h1 : secretKeyFromBytes ((d.drop 46).take 32) with
  | none => simp
  | some sk => simp

theorem parse82_congr {d d' : List Nat}
    (h13 : (d.drop 13).take 32 = (d'.drop 13).take 32)
    (h46 : (d.drop 46).take 32 = (d'.drop 46).take 32) :
    parse82 d = parse82 d' := by
  unfold parse82
  rw [h13, h46]

/-- C7: `from_str` fails with the invalid-extended-priv-key error exactly
when Base58 decoding fails or the decoded length is not exactly 82 bytes;
on an 82-byte decode it behaves as `parse82`, which takes the chain code
from bytes 13 to 44, takes the secret scalar from bytes 46 to 77 (failing
with the curve-parameter error exactly when that scalar candidate is
invalid), and depends on no byte outside those two ranges. -/
theorem c7_from_str_parsing (s : List Nat) :
    (ExtendedPrivKey.fromStr s = .error .InvalidExtendedPrivKey ↔
      (fromBase58 s = none ∨ ∃ d, fromBase58 s = some d ∧ d.length ≠ 82)) ∧
    (∀ d, fromBase58 s = some d → d.length = 82 →
      ExtendedPrivKey.fromStr s = parse82 d) ∧
    (∀ d k, parse82 d = .ok k →
      k.secret_key = bytesToNat ((d.drop 46).take 32) ∧
      k.chain_code.buf = (d.drop 13).take 32) ∧
    (∀ d, parse82 d = .error .Secp256k1 ↔
      secretKeyFromBytes ((d.drop 46).take 32) = none) ∧
    (∀ d d' : List Nat, (d.drop 13).take 32 = (d'.drop 13).take 32 →
      (d.drop 46).take 32 = (d'.drop 46).take 32 → parse82 d = parse82 d') := by
  refine ⟨?_, ?_, fun d k h => ⟨(parse82_ok h).1, (parse82_ok h).2.1⟩,
    parse82_error_iff, fun d d' => parse82_congr⟩
  · unfold ExtendedPrivKey.fromStr
    cases hd : fromBase58 s with
    | none => simp
    | some d =>
      simp only [hd]
      by_cases hl : d.length = 82
      · rw [if_neg (by simp [hl])]
        refine iff_of_false (parse82_not_invalid d) ?_
        rintro (h | ⟨d', hd', hne⟩)
        · exact Option.noConfusion h
        · injection hd' with hd2
          exact hne (hd2 ▸ hl)
      · rw [if_pos hl]
        exact iff_of_true rfl (Or.inr ⟨d, rfl, hl⟩)
  · intro d hd hl
    unfold ExtendedPrivKey.fromStr
    simp only [hd]
    rw [if_neg (by simp [hl])]

theorem c7_from_str_parsing_witness :
    fromBase58 sW7 = some dataW7 ∧ dataW7.length = 82 ∧
    ExtendedPrivKey.fromStr sW7 = parse82 dataW7 := by
  have hd : fromBase58 sW7 = some dataW7 := by decide
  have hl : dataW7.length = 82 := by decide
  exact ⟨hd, hl, (c7_from_str_parsing sW7).2.1 dataW7 hd hl⟩

/-- C8: every extended key any construction path returns — `derive` from a
seed, `child` from a parent, or `from_str` from serialized text — carries
a secret scalar that is nonzero and below the curve order; invalid
candidate bytes are rejected with the curve-parameter error instead. -/
theorem c8_constructed_scalars_valid :
    (∀ seed path k, ExtendedPrivKey.derive seed path = .ok k →
      1 ≤ k.secret_key ∧ k.secret_key < secpN) ∧
    (∀ parent c k, ExtendedPrivKey.child parent c = .ok k →
      1 ≤ k.secret_key ∧ k.secret_key < secpN) ∧
    (∀ s k, ExtendedPrivKey.fromStr s = .ok k →
      1 ≤ k.secret_key ∧ k.secret_key < secpN) := by
  refine ⟨?_, ?_, ?_⟩
  · intro seed path k h
    rw [derive_eq_bind_master] at h
    cases hm : masterFromI (hmacSha512 bitcoinSeedKey seed) with
    | error e =>
      rw [hm] at h
      exact Except.noConfusion h
    | ok m =>
      rw [hm] at h
      obtain ⟨-, -, h1, hN⟩ := masterFromI_ok hm
      exact derivePath_ok_valid ⟨h1, hN⟩ h
  · intro parent c k h
    obtain ⟨il, -, -, h1, hN, -⟩ := child_ok h
    exact ⟨h1, hN⟩
  · intro s k h
    unfold ExtendedPrivKey.fromStr at h
    cases hd : fromBase58 s with
    | none =>
      simp only [hd] at h
      exact Except.noConfusion h
    | some d =>
      simp only [hd] at h
      by_cases hl : d.length ≠ 82
      · rw [if_pos hl] at h
        exact Except.noConfusion h
      · rw [if_neg hl] at h
        exact ⟨(parse82_ok h).2.2.1, (parse82_ok h).2.2.2⟩

theorem c8_constructed_scalars_valid_witness :
    ExtendedPrivKey.derive [4, 5, 6] [] = .ok kW8 ∧
    (1 ≤ kW8.secret_key ∧ kW8.secret_key < secpN) := by
  have h : ExtendedPrivKey.derive [4, 5, 6] [] = .ok kW8 := by decide
  exact ⟨h, c8_constructed_scalars_valid.1 [4, 5, 6] [] kW8 h⟩

/-- C1: for the seed produced by the external BIP-39 collaborator from the
reference mnemonic with empty passphrase, deriving the path
`m/44h/60h/0h/0/0` succeeds, and `secret` on the result returns exactly
the 32 reference bytes `ff1e...9314`: the whole pipeline — two HMAC-SHA512
splits per step, hardened and normal branches, compressed public-point
encodings, and modular scalar additions — is evaluated inside the kernel. -/
theorem c1_reference_vector_secret :
    (ExtendedPrivKey.derive testSeed testDerivationPath).map ExtendedPrivKey.secret =
      .ok (some expectedTestSecret) := by decide
